import Mathlib

/-!
Verification of the derivation subsystem of the hibou GTFS ETL tool:
the service-route generator, the node generator, and the derivation
orchestrator (`GtfsService::insert_service_routes_tables` and
`GtfsService::insert_nodes_tables` in `src/app/gtfs.rs`, driven by
`cmd::db::create::run` in `src/cmd/db/create.rs`).

Rows read from the database (`select_stop_time_details`,
`select_stop_details`) are modelled as explicit input lists; the bulk
insert sink is modelled as a trace of insert operations.
-/

namespace Hibou

/-- A stop-time detail row as yielded by `select_stop_time_details`. -/
structure StopTimeDetail where
  trip_id : String
  stop_sequence : Nat
  stop_id : String
  stop_name : String
  stop_headsign : Option String
deriving DecidableEq, Repr

/-- A stop detail row as yielded by `select_stop_details`. -/
structure StopDetail where
  stop_id : String
  stop_name : String
  stop_ruby : Option String
  parent_station : Option String
deriving DecidableEq, Repr

/-- A derived service route row (table `service_routes`). -/
structure ServiceRoute where
  service_route_id : Nat
  direction_id : Nat
  service_route_name : String
deriving DecidableEq, Repr

/-- A derived trip-to-service-route row (table `trips_to_service_routes`). -/
structure Trip2ServiceRoute where
  trip_id : String
  service_route_id : Nat
  service_route_direction_id : Nat
deriving DecidableEq, Repr

/-- A derived node row (table `nodes`). -/
structure Node where
  node_id : Nat
  node_name : String
  node_ruby : Option String
deriving DecidableEq, Repr

/-- The `--service-route-identify-strategy` variants. -/
inductive IdentifyStrategy
  | stop_names
  | stop_ids
  | first_and_last_stop_names
  | identity_table
deriving DecidableEq, Repr

/-- A row of the optional `--service-route-identify` CSV, mapping a
pattern key to a pinned `(service_route_id, direction_id, name)`. -/
structure ServiceRouteIdentity where
  key : List String
  service_route_id : Nat
  direction_id : Nat
  service_route_name : String
deriving DecidableEq, Repr

/-- Errors the service-route generator can produce. -/
inductive ServiceRouteError
  | emptyTrip
  | unknownServiceRoute
deriving DecidableEq, Repr

/-- The strategies whose pattern key is computed from the trip's stops
(everything except `identity_table`). -/
def stopBased : IdentifyStrategy → Bool
  | .identity_table => false
  | _ => true

/-- Modelled from the spec: the pattern key of a trip's ordered
stop-time details under a stop-based strategy (`ServiceRouteGenerator`
lives in `src/external/gtfs/extended/service_routes.rs`, which is not
part of the provided sources). `stop_names` keys on the ordered stop
names, `stop_ids` on the ordered stop ids, and
`first_and_last_stop_names` on the (first, last) stop-name pair. -/
def patternKey : IdentifyStrategy → List StopTimeDetail → List String
  | .stop_ids, ds => ds.map (·.stop_id)
  | .first_and_last_stop_names, ds =>
    match ds with
    | [] => []
    | d :: rest => [d.stop_name, ((d :: rest).getLastD d).stop_name]
  | _, ds => ds.map (·.stop_name)

/-- One entry of the generator's pattern registry: a canonical forward
pattern key together with the direction-0 service route it produced. -/
structure RegEntry where
  key : List String
  route : ServiceRoute
deriving DecidableEq, Repr

/-- The generator's transient state: the registry, in registration
order (ids are `1, 2, …` in this order). -/
abbrev GenState := List RegEntry

/-- Modelled from the spec: registry lookup. A key matching a
registered forward key yields that route (direction 0); a key matching
the reverse of a registered key yields the same id with direction 1. -/
def lookupSR (st : GenState) (k : List String) : Option ServiceRoute :=
  match st.find? (fun e => decide (e.key = k)) with
  | some e => some e.route
  | none =>
    match st.find? (fun e => decide (e.key = k.reverse)) with
    | some e => some { e.route with direction_id := 1 }
    | none => none

/-- Modelled from the spec: `ServiceRouteGenerator::generate` (the
generator's source file is not among the provided sources). An empty
trip fails with `EmptyTrip`. Under `identity_table` the key is looked
up in the supplied table (miss fails with `UnknownServiceRoute`).
Under a stop-based strategy a known forward key returns the registered
route, a known reversed key returns the same id with direction 1, and
an unknown key registers a fresh route with the next sequential id,
direction 0, and name `"<first stop> - <last stop>"`. -/
def generate (strategy : IdentifyStrategy)
    (identities : Option (List ServiceRouteIdentity))
    (st : GenState) (ds : List StopTimeDetail) :
    Except ServiceRouteError (ServiceRoute × GenState) :=
  match ds with
  | [] => .error .emptyTrip
  | d :: rest =>
    match strategy with
    | .identity_table =>
      let k := (d :: rest).map (·.stop_name)
      match (identities.getD []).find? (fun row => decide (row.key = k)) with
      | none => .error .unknownServiceRoute
      | some row =>
        let r : ServiceRoute :=
          ⟨row.service_route_id, row.direction_id, row.service_route_name⟩
        let st' := if st.any (fun e => decide (e.route = r)) then st else st ++ [⟨k, r⟩]
        .ok (r, st')
    | s =>
      let k := patternKey s (d :: rest)
      match lookupSR st k with
      | some r => .ok (r, st)
      | none =>
        let nm := d.stop_name ++ " - " ++ ((d :: rest).getLastD d).stop_name
        let r : ServiceRoute := ⟨st.length + 1, 0, nm⟩
        .ok (r, st ++ [⟨k, r⟩])

/-- Errors of one `insert_service_routes_tables` run. A failing
identity-table load is propagated with `?` (an `Err` return); a
generator failure is hit by the `.unwrap()` on line 228 of
`src/app/gtfs.rs` and aborts the process, modelled as `panicked`. -/
inductive RunError
  | malformedIdentityTable
  | panicked (e : ServiceRouteError)
deriving DecidableEq, Repr

/-- The stop-time details of one trip, in input order: the value list
produced for key `t` by `into_group_map_by(|x| x.trip_id.clone())`. -/
def detailsOf (rows : List StopTimeDetail) (t : String) : List StopTimeDetail :=
  rows.filter (fun x => decide (x.trip_id = t))

/-- The trip-processing loop of `insert_service_routes_tables`
(`src/app/gtfs.rs` lines 221-236): one `generate` call and one
`Trip2ServiceRoute` per trip id, threading the generator state. -/
def processTrips (strategy : IdentifyStrategy)
    (identities : Option (List ServiceRouteIdentity))
    (rows : List StopTimeDetail) :
    List String → GenState → Except ServiceRouteError (List Trip2ServiceRoute × GenState)
  | [], st => .ok ([], st)
  | t :: ts, st =>
    match generate strategy identities st (detailsOf rows t) with
    | .error e => .error e
    | .ok (r, st1) =>
      match processTrips strategy identities rows ts st1 with
      | .error e => .error e
      | .ok (ps, st2) =>
        .ok (⟨t, r.service_route_id, r.direction_id⟩ :: ps, st2)

/-- Comparison used by `sorted_by_key(|x| x.service_route_id)` on the
`Trip2ServiceRoute` collection. -/
def bySrId (a b : Trip2ServiceRoute) : Prop :=
  a.service_route_id ≤ b.service_route_id

/-- Comparison used by `sorted_by_key(|x| x.service_route_id)` on the
`ServiceRoute` collection. -/
def routeBySrId (a b : ServiceRoute) : Prop :=
  a.service_route_id ≤ b.service_route_id

instance : DecidableRel bySrId := fun a b => Nat.decLe a.service_route_id b.service_route_id

instance : DecidableRel routeBySrId := fun a b => Nat.decLe a.service_route_id b.service_route_id

/-- The lexicographic order on trip ids (`String: Ord` in Rust),
expressed on the underlying character lists so that it evaluates by
kernel reduction. -/
def strLe (a b : String) : Prop := a.data ≤ b.data

instance : DecidableRel strLe :=
  fun a b => inferInstanceAs (Decidable (a.data ≤ b.data))

instance : IsTotal String strLe := ⟨fun a b => le_total a.data b.data⟩

instance : IsTrans String strLe := ⟨fun _ _ _ h1 h2 => le_trans h1 h2⟩

instance : IsAntisymm String strLe :=
  ⟨fun a b h1 h2 => by
    cases a; cases b; exact congrArg String.mk (le_antisymm h1 h2)⟩

/-- Embedding of `GtfsService::insert_service_routes_tables`
(`src/app/gtfs.rs` lines 205-258), parameterized over the order `ks`
in which the trip-id hash map yields its keys (`into_group_map_by`
iterates in unspecified order; the code immediately sorts by trip id).
`itertools::sorted_by_key` is a stable sort, modelled by
`List.insertionSort`. The optional identity CSV is `none` when the
`--service-route-identify` option is absent, `some (.error ())` when
present but malformed, and `some (.ok rows)` when present and
well-formed; the code loads it (propagating failure with `?`) whenever
the option is present. -/
def pipelineWithKeys (strategy : IdentifyStrategy)
    (identityInput : Option (Except Unit (List ServiceRouteIdentity)))
    (ks : List String) (rows : List StopTimeDetail) :
    Except RunError (List Trip2ServiceRoute × List ServiceRoute) :=
  match identityInput with
  | some (.error _) => .error .malformedIdentityTable
  | _ =>
    let identities : Option (List ServiceRouteIdentity) :=
      match identityInput with
      | some (.ok l) => some l
      | _ => none
    match processTrips strategy identities rows (List.insertionSort strLe ks) [] with
    | .error e => .error (.panicked e)
    | .ok (ps, st) =>
      .ok (List.insertionSort bySrId ps,
           List.insertionSort routeBySrId (st.map (·.route)))

/-- The distinct trip ids of the stop-time details: the key set of
`into_group_map_by(|x| x.trip_id.clone())`. -/
def groupKeys (rows : List StopTimeDetail) : List String :=
  (rows.map (·.trip_id)).dedup

/-- `GtfsService::insert_service_routes_tables` with the canonical key
order. -/
def insert_service_routes_tables (strategy : IdentifyStrategy)
    (identityInput : Option (Except Unit (List ServiceRouteIdentity)))
    (rows : List StopTimeDetail) :
    Except RunError (List Trip2ServiceRoute × List ServiceRoute) :=
  pipelineWithKeys strategy identityInput (groupKeys rows) rows

/-- The node-numbering loop of `insert_nodes_tables` (`src/app/gtfs.rs`
lines 263-275): `i` is the mutable counter, incremented before each
retained row is emitted. -/
def nodesAux : Nat → List StopDetail → List Node
  | _, [] => []
  | i, x :: xs =>
    if x.parent_station.isNone then
      ⟨i + 1, x.stop_name, x.stop_ruby⟩ :: nodesAux (i + 1) xs
    else
      nodesAux i xs

/-- Embedding of `GtfsService::insert_nodes_tables` (`src/app/gtfs.rs`
lines 261-281). -/
def insert_nodes_tables (sds : List StopDetail) : List Node :=
  nodesAux 0 sds

/-- A bulk-insert call performed against the database sink. -/
inductive InsertOp
  | trips2service_routes (rows : List Trip2ServiceRoute)
  | service_routes (rows : List ServiceRoute)
  | nodes (rows : List Node)
deriving DecidableEq, Repr

/-- The derivation part of `cmd::db::create::run` (`src/cmd/db/create.rs`
lines 44-49): `insert_service_routes_tables` followed by
`insert_nodes_tables`, short-circuiting with `?`, together with the
trace of insert calls issued to the sink. Inside
`insert_service_routes_tables` both error exits (the propagated
identity-load failure and the `.unwrap()` abort in the trip loop)
occur before the first insert call, so a failing run issues none. -/
def runDerivation (strategy : IdentifyStrategy)
    (identityInput : Option (Except Unit (List ServiceRouteIdentity)))
    (rows : List StopTimeDetail) (sds : List StopDetail) :
    Except RunError Unit × List InsertOp :=
  match insert_service_routes_tables strategy identityInput rows with
  | .error e => (.error e, [])
  | .ok (ps, rs) =>
    (.ok (), [.trips2service_routes ps, .service_routes rs,
              .nodes (insert_nodes_tables sds)])


/-! ### Helper lemmas about the node generator -/

/-- Unfolding of the node-numbering loop: the retained rows, numbered
from `i + 1` onwards. -/
theorem nodesAux_eq (i : Nat) (sds : List StopDetail) :
    nodesAux i sds =
      ((sds.filter fun x => x.parent_station.isNone).enumFrom (i + 1)).map
        (fun p => ⟨p.1, p.2.stop_name, p.2.stop_ruby⟩) := by
  induction sds generalizing i with
  | nil => rfl
  | cons x xs ih =>
    simp only [nodesAux, List.filter_cons]
    by_cases h : x.parent_station.isNone
    · simp [h, ih]
    · simp [h, ih]

/-- The node ids are exactly `1, 2, …, M` in order, `M` the number of
retained stops. -/
theorem insert_nodes_tables_map_id (sds : List StopDetail) :
    (insert_nodes_tables sds).map (·.node_id) =
      List.range' 1 (sds.filter fun x => x.parent_station.isNone).length := by
  rw [insert_nodes_tables, nodesAux_eq, List.map_map]
  have h : ((fun n : Node => n.node_id) ∘
      fun p : Nat × StopDetail => (⟨p.1, p.2.stop_name, p.2.stop_ruby⟩ : Node)) =
      Prod.fst := rfl
  rw [h, List.enumFrom_map_fst]

/-! ### Helper lemmas about the trip loop -/

/-- `generate` under a stop-based strategy never reads the identity
table. -/
theorem generate_identities_irrel {s : IdentifyStrategy} (hs : stopBased s = true)
    (ids : Option (List ServiceRouteIdentity)) (st : GenState)
    (ds : List StopTimeDetail) :
    generate s ids st ds = generate s none st ds := by
  cases ds with
  | nil => rfl
  | cons d rest => cases s <;> first | rfl | simp [stopBased] at hs

/-- The trip loop under a stop-based strategy never reads the identity
table. -/
theorem processTrips_identities_irrel {s : IdentifyStrategy} (hs : stopBased s = true)
    (ids : Option (List ServiceRouteIdentity)) (rows : List StopTimeDetail) :
    ∀ (ts : List String) (st : GenState),
      processTrips s ids rows ts st = processTrips s none rows ts st := by
  intro ts
  induction ts with
  | nil => intro st; rfl
  | cons t ts ih =>
    intro st
    simp only [processTrips, generate_identities_irrel hs ids]
    cases generate s none st (detailsOf rows t) with
    | error e => rfl
    | ok p =>
      obtain ⟨r, st1⟩ := p
      dsimp only
      rw [ih st1]

/-- A successful trip loop emits exactly the processed trip ids, in
order. -/
theorem processTrips_ok_map_trip_id {s : IdentifyStrategy}
    {ids : Option (List ServiceRouteIdentity)} {rows : List StopTimeDetail} :
    ∀ {ts : List String} {st : GenState} {ps : List Trip2ServiceRoute} {st2 : GenState},
      processTrips s ids rows ts st = .ok (ps, st2) →
      ps.map (·.trip_id) = ts := by
  intro ts
  induction ts with
  | nil =>
    intro st ps st2 h
    simp only [processTrips, Except.ok.injEq, Prod.mk.injEq] at h
    simp [← h.1]
  | cons t ts ih =>
    intro st ps st2 h
    simp only [processTrips] at h
    split at h
    · simp at h
    · split at h
      · simp at h
      · rename_i ps1 hrec
        simp only [Except.ok.injEq, Prod.mk.injEq] at h
        obtain ⟨h1, -⟩ := h
        subst h1
        simp [ih hrec]

/-- `generate` only ever appends to the registry. -/
theorem generate_state_append {s : IdentifyStrategy}
    {ids : Option (List ServiceRouteIdentity)} {st : GenState}
    {ds : List StopTimeDetail} {r : ServiceRoute} {st1 : GenState}
    (h : generate s ids st ds = .ok (r, st1)) : ∃ ext, st1 = st ++ ext := by
  cases ds with
  | nil => simp [generate] at h
  | cons d rest =>
    cases s <;> simp only [generate] at h
    case identity_table =>
      split at h
      · simp at h
      · simp only [Except.ok.injEq, Prod.mk.injEq] at h
        obtain ⟨-, h2⟩ := h
        split at h2
        · exact ⟨[], by simp [← h2]⟩
        · exact ⟨_, h2.symm⟩
    all_goals
      split at h <;> simp only [Except.ok.injEq, Prod.mk.injEq] at h <;>
        obtain ⟨-, h2⟩ := h
      · exact ⟨[], by simp [← h2]⟩
      · exact ⟨_, h2.symm⟩

/-- The trip loop only ever appends to the registry. -/
theorem processTrips_state_append {s : IdentifyStrategy}
    {ids : Option (List ServiceRouteIdentity)} {rows : List StopTimeDetail} :
    ∀ {ts : List String} {st : GenState} {ps : List Trip2ServiceRoute} {st2 : GenState},
      processTrips s ids rows ts st = .ok (ps, st2) →
      ∃ ext, st2 = st ++ ext := by
  intro ts
  induction ts with
  | nil =>
    intro st ps st2 h
    simp only [processTrips, Except.ok.injEq, Prod.mk.injEq] at h
    exact ⟨[], by simp [← h.2]⟩
  | cons t ts ih =>
    intro st ps st2 h
    simp only [processTrips] at h
    split at h
    · simp at h
    · rename_i p hgen
      split at h
      · simp at h
      · rename_i ps1 hrec
        obtain ⟨ext1, he1⟩ := generate_state_append hgen
        obtain ⟨ext2, he2⟩ := ih hrec
        simp only [Except.ok.injEq, Prod.mk.injEq] at h
        exact ⟨ext1 ++ ext2, by rw [← h.2, he2, he1, List.append_assoc]⟩

/-! ### Concrete example feeds -/

/-- Two symmetric trips: `t1 = [A, B, C]`, `t2 = [C, B, A]`. -/
def s1rows : List StopTimeDetail :=
  [⟨"t1", 1, "A1", "A", none⟩, ⟨"t1", 2, "B1", "B", none⟩, ⟨"t1", 3, "C1", "C", none⟩,
   ⟨"t2", 1, "C1", "C", none⟩, ⟨"t2", 2, "B1", "B", none⟩, ⟨"t2", 3, "A1", "A", none⟩]

/-- Three trips: `a = [A, B]`, `b = [C, D]`, `c = [B, A]`; `a` and `c`
share service route 1 and `b` gets service route 2. -/
def branchRows : List StopTimeDetail :=
  [⟨"a", 1, "A1", "A", none⟩, ⟨"a", 2, "B1", "B", none⟩,
   ⟨"b", 1, "C1", "C", none⟩, ⟨"b", 2, "D1", "D", none⟩,
   ⟨"c", 1, "B1", "B", none⟩, ⟨"c", 2, "A1", "A", none⟩]

/-- A single one-stop trip whose pattern no identity table declares. -/
def unknownTripRows : List StopTimeDetail :=
  [⟨"t1", 1, "A1", "A", none⟩]

/-! ### Claim theorems (first group) -/

/-- Claim C4: `insert_nodes_tables` keeps exactly the input rows whose
`parent_station` is empty, in input order, gives the `j`-th retained
row (0-based) the node id `j + 1`, and copies `stop_name` and
`stop_ruby` unchanged. -/
theorem claim4_node_generation (sds : List StopDetail) :
    insert_nodes_tables sds =
      ((sds.filter fun x => x.parent_station.isNone).enumFrom 1).map
        (fun p => ⟨p.1, p.2.stop_name, p.2.stop_ruby⟩) :=
  nodesAux_eq 0 sds

/-- Claim C9: when the identity CSV is present but malformed, the run
returns the `MalformedIdentityTable` error before any insert: the sink
trace is empty, so `insert_trips2service_routes`, `insert_service_routes`
and `insert_nodes` are never reached, under every strategy and input. -/
theorem claim9_malformed_aborts_before_insert (strategy : IdentifyStrategy)
    (rows : List StopTimeDetail) (sds : List StopDetail) :
    runDerivation strategy (some (.error ())) rows sds =
      (.error .malformedIdentityTable, []) := rfl

/-- Claim C2 (code bug): on a generator failure the trip loop of
`insert_service_routes_tables` hits the `.unwrap()` on line 228 of
`src/app/gtfs.rs` and aborts the process (modelled as `panicked`)
instead of returning an `Err` with a context message; no insert is
issued. Evaluated at a concrete failing input: the `identity_table`
strategy with an empty (well-formed) table and one trip. -/
theorem claim2_unwrap_aborts :
    runDerivation .identity_table (some (.ok [])) unknownTripRows [] =
      (.error (.panicked .unknownServiceRoute), []) := by
  rfl

/-- Claim C8 counterexample: with strategy `stop_names` (not
`identity_table`) the run outcome differs between a present-but-malformed
identity CSV and an absent one, because `insert_service_routes_tables`
loads the file (propagating its error) whenever the option is present. -/
theorem claim8_counterexample :
    insert_service_routes_tables .stop_names (some (.error ())) [] ≠
      insert_service_routes_tables .stop_names none [] := by
  have h1 : insert_service_routes_tables .stop_names (some (.error ())) [] =
      .error .malformedIdentityTable := rfl
  have h2 : insert_service_routes_tables .stop_names none [] = .ok ([], []) := rfl
  rw [h1, h2]
  exact fun h => Except.noConfusion h

/-- Claim C8 (amended): for every strategy other than `identity_table`
a present well-formed identity CSV is ignored — the run result equals
the one with the option absent; a malformed CSV however aborts the run
under every strategy (see the counterexample). -/
theorem claim8_wellformed_identity_ignored (strategy : IdentifyStrategy)
    (hs : stopBased strategy = true)
    (idRows : List ServiceRouteIdentity) (rows : List StopTimeDetail) :
    insert_service_routes_tables strategy (some (.ok idRows)) rows =
      insert_service_routes_tables strategy none rows := by
  simp only [insert_service_routes_tables, pipelineWithKeys]
  rw [processTrips_identities_irrel hs (some idRows) rows]

/-- Witness for the amended claim C8 at a concrete input. -/
theorem claim8_wellformed_identity_ignored_witness :
    stopBased .stop_names = true ∧
    insert_service_routes_tables .stop_names (some (.ok [])) s1rows =
      insert_service_routes_tables .stop_names none s1rows :=
  ⟨by decide, claim8_wellformed_identity_ignored .stop_names (by decide) [] s1rows⟩

/-! ### Decomposition of a successful run -/

instance : IsTotal Trip2ServiceRoute bySrId :=
  ⟨fun a b => Nat.le_total a.service_route_id b.service_route_id⟩

instance : IsTrans Trip2ServiceRoute bySrId :=
  ⟨fun _ _ _ hab hbc => Nat.le_trans hab hbc⟩

instance : IsTotal ServiceRoute routeBySrId :=
  ⟨fun a b => Nat.le_total a.service_route_id b.service_route_id⟩

instance : IsTrans ServiceRoute routeBySrId :=
  ⟨fun _ _ _ hab hbc => Nat.le_trans hab hbc⟩

/-- A successful `insert_service_routes_tables` run is a successful
trip loop over the sorted distinct trip ids followed by the two stable
sorts by `service_route_id`. -/
theorem insert_ok_elim {strategy : IdentifyStrategy}
    {idInput : Option (Except Unit (List ServiceRouteIdentity))}
    {rows : List StopTimeDetail} {pairs : List Trip2ServiceRoute}
    {routes : List ServiceRoute}
    (h : insert_service_routes_tables strategy idInput rows = .ok (pairs, routes)) :
    ∃ ids ps st,
      processTrips strategy ids rows (List.insertionSort strLe (groupKeys rows)) [] =
        .ok (ps, st) ∧
      pairs = List.insertionSort bySrId ps ∧
      routes = List.insertionSort routeBySrId (st.map (·.route)) := by
  simp only [insert_service_routes_tables, pipelineWithKeys] at h
  split at h
  · simp at h
  · split at h
    · simp at h
    · rename_i heq
      simp only [Except.ok.injEq, Prod.mk.injEq] at h
      exact ⟨_, _, _, heq, h.1.symm, h.2.symm⟩

/-! ### Claim theorems (second group) -/

/-- Claim C1: in a successful run every `trip_id` of the stop-time
details appears exactly once among the produced
`trips_to_service_routes` rows — the emitted trip ids are duplicate-free
and coincide with the trip ids present in the input. -/
theorem claim1_coverage {strategy : IdentifyStrategy}
    {idInput : Option (Except Unit (List ServiceRouteIdentity))}
    {rows : List StopTimeDetail} {pairs : List Trip2ServiceRoute}
    {routes : List ServiceRoute}
    (h : insert_service_routes_tables strategy idInput rows = .ok (pairs, routes)) :
    (pairs.map (·.trip_id)).Nodup ∧
    ∀ t, t ∈ pairs.map (·.trip_id) ↔ t ∈ rows.map (·.trip_id) := by
  obtain ⟨ids, ps, st, hpt, hpairs, -⟩ := insert_ok_elim h
  have hmap : ps.map (·.trip_id) = List.insertionSort strLe (groupKeys rows) :=
    processTrips_ok_map_trip_id hpt
  have hperm : List.Perm (pairs.map (·.trip_id)) ((rows.map (·.trip_id)).dedup) := by
    rw [hpairs]
    refine ((List.perm_insertionSort bySrId ps).map _).trans ?_
    rw [hmap]
    exact List.perm_insertionSort _ _
  constructor
  · exact hperm.symm.nodup (List.nodup_dedup _)
  · intro t
    rw [hperm.mem_iff, List.mem_dedup]

/-- Witness for claim C1 at a concrete feed. -/
theorem claim1_coverage_witness :
    ([(⟨"t1", 1, 0⟩ : Trip2ServiceRoute), ⟨"t2", 1, 1⟩].map (·.trip_id)).Nodup ∧
    ∀ t, t ∈ [(⟨"t1", 1, 0⟩ : Trip2ServiceRoute), ⟨"t2", 1, 1⟩].map (·.trip_id) ↔
      t ∈ s1rows.map (·.trip_id) :=
  claim1_coverage
    (show insert_service_routes_tables .stop_names none s1rows =
        .ok ([⟨"t1", 1, 0⟩, ⟨"t2", 1, 1⟩], [⟨1, 0, "A - C"⟩]) from rfl)

/-- Claim C7: the derived tables do not depend on the iteration order
of the trip-id hash map: feeding the pipeline any permutation of the
distinct trip ids yields the same result as the canonical run, so two
runs over the same inputs produce identical row sequences. -/
theorem claim7_deterministic {strategy : IdentifyStrategy}
    {idInput : Option (Except Unit (List ServiceRouteIdentity))}
    {rows : List StopTimeDetail} {ks : List String}
    (hperm : List.Perm ks (groupKeys rows)) :
    pipelineWithKeys strategy idInput ks rows =
      insert_service_routes_tables strategy idInput rows := by
  have hsort : List.insertionSort strLe ks =
      List.insertionSort strLe (groupKeys rows) :=
    List.eq_of_perm_of_sorted (r := strLe)
      ((List.perm_insertionSort _ _).trans
        (hperm.trans (List.perm_insertionSort _ _).symm))
      (List.sorted_insertionSort _ _) (List.sorted_insertionSort _ _)
  simp only [insert_service_routes_tables, pipelineWithKeys, hsort]

/-- Witness for claim C7: a reversed key order yields the same run. -/
theorem claim7_deterministic_witness :
    List.Perm (["t2", "t1"] : List String) (groupKeys s1rows) ∧
    pipelineWithKeys .stop_names none ["t2", "t1"] s1rows =
      insert_service_routes_tables .stop_names none s1rows :=
  ⟨by decide, claim7_deterministic (by decide)⟩

/-- Claim C3 counterexample: the `trips_to_service_routes` rows handed
to the sink are not in ascending `trip_id` order. With trips
`a = [A, B]`, `b = [C, D]`, `c = [B, A]` the final sort by
`service_route_id` produces trip order `a, c, b`. -/
theorem claim3_counterexample :
    insert_service_routes_tables .stop_names none branchRows =
      .ok ([⟨"a", 1, 0⟩, ⟨"c", 1, 1⟩, ⟨"b", 2, 0⟩],
           [⟨1, 0, "A - B"⟩, ⟨2, 0, "C - D"⟩]) ∧
    ¬ ([(⟨"a", 1, 0⟩ : Trip2ServiceRoute), ⟨"c", 1, 1⟩, ⟨"b", 2, 0⟩].Pairwise
        (fun a b => strLe a.trip_id b.trip_id)) := by
  refine ⟨rfl, fun hc => ?_⟩
  have h1 : strLe "c" "b" :=
    (List.pairwise_cons.mp (List.pairwise_cons.mp hc).2).1 ⟨"b", 2, 0⟩ (by simp)
  exact absurd h1 (by decide)

/-- Claim C3 (amended): each output collection is sorted by
`service_route_id` — not by `trip_id` for the trips collection — and
the node rows are in ascending `node_id` order. -/
theorem claim3_sorted_by_service_route_id {strategy : IdentifyStrategy}
    {idInput : Option (Except Unit (List ServiceRouteIdentity))}
    {rows : List StopTimeDetail} {pairs : List Trip2ServiceRoute}
    {routes : List ServiceRoute}
    (h : insert_service_routes_tables strategy idInput rows = .ok (pairs, routes))
    (sds : List StopDetail) :
    pairs.Pairwise bySrId ∧ routes.Pairwise routeBySrId ∧
    (insert_nodes_tables sds).Pairwise (fun a b => a.node_id ≤ b.node_id) := by
  obtain ⟨ids, ps, st, -, hpairs, hroutes⟩ := insert_ok_elim h
  refine ⟨?_, ?_, ?_⟩
  · rw [hpairs]; exact List.sorted_insertionSort _ _
  · rw [hroutes]; exact List.sorted_insertionSort _ _
  · have hp : ((insert_nodes_tables sds).map (·.node_id)).Pairwise (· ≤ ·) := by
      rw [insert_nodes_tables_map_id sds]
      exact List.pairwise_le_range' _ _
    rw [List.pairwise_map] at hp
    exact hp

/-- Witness for the amended claim C3 at a concrete input. -/
theorem claim3_sorted_witness :
    ([(⟨"t1", 1, 0⟩ : Trip2ServiceRoute), ⟨"t2", 1, 1⟩]).Pairwise bySrId ∧
    ([(⟨1, 0, "A - C"⟩ : ServiceRoute)]).Pairwise routeBySrId ∧
    (insert_nodes_tables [⟨"S1", "Shibuya", none, none⟩]).Pairwise
      (fun a b => a.node_id ≤ b.node_id) :=
  claim3_sorted_by_service_route_id
    (show insert_service_routes_tables .stop_names none s1rows =
        .ok ([⟨"t1", 1, 0⟩, ⟨"t2", 1, 1⟩], [⟨1, 0, "A - C"⟩]) from rfl)
    [⟨"S1", "Shibuya", none, none⟩]

/-! ### Registry invariants (stop-based strategies) -/

/-- Strict lexicographic order on trip ids. -/
def strLt (a b : String) : Prop := a.data < b.data

instance : DecidableRel strLt :=
  fun a b => inferInstanceAs (Decidable (a.data < b.data))

/-- Two pattern keys identify the same service route: they are equal
or mutually reversed. -/
def keyMatches (k1 k2 : List String) : Prop := k1 = k2 ∨ k1 = k2.reverse

instance : DecidableRel keyMatches :=
  fun k1 k2 => inferInstanceAs (Decidable (k1 = k2 ∨ k1 = k2.reverse))

/-- The pattern key of a trip, computed from its grouped stop-time
details. -/
def tripKey (s : IdentifyStrategy) (rows : List StopTimeDetail) (t : String) :
    List String :=
  patternKey s (detailsOf rows t)

/-- Registered forward keys are pairwise neither equal nor mutually
reversed. -/
def KeyDisjoint (st : GenState) : Prop :=
  st.Pairwise (fun a b => a.key ≠ b.key ∧ a.key ≠ b.key.reverse)

/-- The `i`-th registry entry carries service route id `i + 1`. -/
def IdsSequential (st : GenState) : Prop :=
  ∀ (i : Nat) (h : i < st.length), (st.get ⟨i, h⟩).route.service_route_id = i + 1

/-- Every registered route is the direction-0 record of its pattern. -/
def DirZero (st : GenState) : Prop :=
  ∀ e ∈ st, e.route.direction_id = 0

/-- Registry invariant maintained by the stop-based strategies. -/
def Inv (st : GenState) : Prop :=
  KeyDisjoint st ∧ IdsSequential st ∧ DirZero st

theorem inv_nil : Inv [] :=
  ⟨List.Pairwise.nil, fun i h => absurd h (by simp), fun e he => absurd he (by simp)⟩

theorem lookupSR_eq_none_iff {st : GenState} {k : List String} :
    lookupSR st k = none ↔ ∀ e ∈ st, e.key ≠ k ∧ e.key ≠ k.reverse := by
  constructor
  · intro h e he
    unfold lookupSR at h
    split at h
    · simp at h
    · rename_i hfwd
      split at h
      · simp at h
      · rename_i hrev
        rw [List.find?_eq_none] at hfwd hrev
        exact ⟨by simpa using hfwd e he, by simpa using hrev e he⟩
  · intro h
    have hfwd : st.find? (fun e => decide (e.key = k)) = none := by
      rw [List.find?_eq_none]; intro e he; simpa using (h e he).1
    have hrev : st.find? (fun e => decide (e.key = k.reverse)) = none := by
      rw [List.find?_eq_none]; intro e he; simpa using (h e he).2
    simp only [lookupSR, hfwd, hrev]

theorem lookupSR_some_elim {st : GenState} {k : List String} {r : ServiceRoute}
    (h : lookupSR st k = some r) :
    ∃ e ∈ st, (e.key = k ∧ r = e.route) ∨
      (e.key = k.reverse ∧ (∀ a ∈ st, a.key ≠ k) ∧
        r = { e.route with direction_id := 1 }) := by
  unfold lookupSR at h
  split at h
  · rename_i e hfind
    have hk : e.key = k := by simpa using List.find?_some hfind
    have he : e ∈ st := List.mem_of_find?_eq_some hfind
    simp only [Option.some.injEq] at h
    exact ⟨e, he, Or.inl ⟨hk, h.symm⟩⟩
  · rename_i hfwd
    split at h
    · rename_i e hfind
      have hk : e.key = k.reverse := by simpa using List.find?_some hfind
      have he : e ∈ st := List.mem_of_find?_eq_some hfind
      rw [List.find?_eq_none] at hfwd
      simp only [Option.some.injEq] at h
      exact ⟨e, he, Or.inr ⟨hk, fun a ha => by simpa using hfwd a ha, h.symm⟩⟩
    · simp at h

/-- A registered lookup result survives appending further entries, as
long as the extended registry is still key-disjoint. -/
theorem lookupSR_append {st ext : GenState} {k : List String} {r : ServiceRoute}
    (hkd : KeyDisjoint (st ++ ext)) (h : lookupSR st k = some r) :
    lookupSR (st ++ ext) k = some r := by
  unfold lookupSR at h
  split at h
  · rename_i e hfind
    have h1 : (st ++ ext).find? (fun e => decide (e.key = k)) = some e := by
      rw [List.find?_append, hfind, Option.or_some]
    simp only [lookupSR, h1]
    simpa using h
  · rename_i hfwd
    split at h
    · rename_i e hfind
      have he : e ∈ st := List.mem_of_find?_eq_some hfind
      have hk : e.key = k.reverse := by simpa using List.find?_some hfind
      have hextfwd : ext.find? (fun a => decide (a.key = k)) = none := by
        rw [List.find?_eq_none]
        intro f hf hdec
        have hfk : f.key = k := by simpa using hdec
        have hrel := (List.pairwise_append.mp hkd).2.2 e he f hf
        exact hrel.2 (by rw [hk, hfk])
      have h1 : (st ++ ext).find? (fun e => decide (e.key = k)) = none := by
        rw [List.find?_append, hfwd, Option.none_or]
        exact hextfwd
      have h2 : (st ++ ext).find? (fun e => decide (e.key = k.reverse)) = some e := by
        rw [List.find?_append, hfind, Option.or_some]
      simp only [lookupSR, h1, h2]
      simpa using h
    · simp at h

/-- A freshly appended entry is found by its own key. -/
theorem lookupSR_append_self {st : GenState} {k : List String} {r : ServiceRoute}
    (hnone : lookupSR st k = none) :
    lookupSR (st ++ [⟨k, r⟩]) k = some r := by
  rw [lookupSR_eq_none_iff] at hnone
  have h0 : st.find? (fun e => decide (e.key = k)) = none := by
    rw [List.find?_eq_none]; intro a ha; simpa using (hnone a ha).1
  have h1 : (st ++ [(⟨k, r⟩ : RegEntry)]).find? (fun e => decide (e.key = k)) =
      some ⟨k, r⟩ := by
    rw [List.find?_append, h0, Option.none_or]
    simp [List.find?]
  simp only [lookupSR, h1]

/-- A lookup result's direction is 0 or 1. -/
theorem lookupSR_dir {st : GenState} {k : List String} {r : ServiceRoute}
    (hdz : DirZero st) (h : lookupSR st k = some r) :
    r.direction_id = 0 ∨ r.direction_id = 1 := by
  obtain ⟨e, he, hcase⟩ := lookupSR_some_elim h
  rcases hcase with ⟨-, hr⟩ | ⟨-, -, hr⟩
  · exact Or.inl (by rw [hr]; exact hdz e he)
  · exact Or.inr (by rw [hr])

/-- Distinct ids determine distinct registry entries. -/
theorem entry_id_inj {st : GenState} (hids : IdsSequential st)
    {e1 e2 : RegEntry} (he1 : e1 ∈ st) (he2 : e2 ∈ st)
    (h : e1.route.service_route_id = e2.route.service_route_id) : e1 = e2 := by
  obtain ⟨i, hi, hie⟩ := List.mem_iff_getElem.mp he1
  obtain ⟨j, hj, hje⟩ := List.mem_iff_getElem.mp he2
  have h1 := hids i hi
  have h2 := hids j hj
  rw [List.get_eq_getElem, hie] at h1
  rw [List.get_eq_getElem, hje] at h2
  have hij : i = j := by omega
  subst hij
  rw [← hie, ← hje]

/-- In a key-disjoint registry, at most one entry matches a key
forward or reversed. -/
theorem entry_match_unique {st : GenState} (hkd : KeyDisjoint st)
    {e1 e2 : RegEntry} {k : List String}
    (he1 : e1 ∈ st) (he2 : e2 ∈ st)
    (m1 : e1.key = k ∨ e1.key = k.reverse)
    (m2 : e2.key = k ∨ e2.key = k.reverse) : e1 = e2 := by
  obtain ⟨i, hi, hie⟩ := List.mem_iff_getElem.mp he1
  obtain ⟨j, hj, hje⟩ := List.mem_iff_getElem.mp he2
  have contra : ∀ a b : RegEntry, (a.key = k ∨ a.key = k.reverse) →
      (b.key = k ∨ b.key = k.reverse) →
      (a.key ≠ b.key ∧ a.key ≠ b.key.reverse) → False := by
    intro a b ma mb hab
    rcases ma with ha | ha <;> rcases mb with hb | hb
    · exact hab.1 (ha.trans hb.symm)
    · exact hab.2 (by rw [ha, hb, List.reverse_reverse])
    · exact hab.2 (by rw [ha, hb])
    · exact hab.1 (ha.trans hb.symm)
  rcases Nat.lt_trichotomy i j with hij | hij | hij
  · have hrel := List.pairwise_iff_getElem.mp hkd i j hi hj hij
    rw [hie, hje] at hrel
    exact (contra e1 e2 m1 m2 hrel).elim
  · subst hij
    rw [← hie, ← hje]
  · have hrel := List.pairwise_iff_getElem.mp hkd j i hj hi hij
    rw [hje, hie] at hrel
    exact (contra e2 e1 m2 m1 hrel).elim

/-- Two lookups in an invariant registry share an id exactly when
their keys are equal or mutually reversed. -/
theorem lookupSR_id_eq_iff {st : GenState} (hkd : KeyDisjoint st)
    (hids : IdsSequential st) {k1 k2 : List String} {r1 r2 : ServiceRoute}
    (h1 : lookupSR st k1 = some r1) (h2 : lookupSR st k2 = some r2) :
    r1.service_route_id = r2.service_route_id ↔ keyMatches k1 k2 := by
  obtain ⟨e1, he1, hc1⟩ := lookupSR_some_elim h1
  obtain ⟨e2, he2, hc2⟩ := lookupSR_some_elim h2
  have m1 : e1.key = k1 ∨ e1.key = k1.reverse := by
    rcases hc1 with ⟨h, -⟩ | ⟨h, -, -⟩
    exacts [Or.inl h, Or.inr h]
  have m2 : e2.key = k2 ∨ e2.key = k2.reverse := by
    rcases hc2 with ⟨h, -⟩ | ⟨h, -, -⟩
    exacts [Or.inl h, Or.inr h]
  have hid1 : r1.service_route_id = e1.route.service_route_id := by
    rcases hc1 with ⟨-, hr⟩ | ⟨-, -, hr⟩ <;> rw [hr]
  have hid2 : r2.service_route_id = e2.route.service_route_id := by
    rcases hc2 with ⟨-, hr⟩ | ⟨-, -, hr⟩ <;> rw [hr]
  constructor
  · intro heq
    have hee : e1 = e2 :=
      entry_id_inj hids he1 he2 (by rw [← hid1, ← hid2, heq])
    subst hee
    rcases m1 with ha | ha <;> rcases m2 with hb | hb
    · exact Or.inl (ha.symm.trans hb)
    · exact Or.inr (ha.symm.trans hb)
    · refine Or.inr ?_
      have hr : k1.reverse = k2 := ha.symm.trans hb
      rw [← hr, List.reverse_reverse]
    · exact Or.inl (List.reverse_inj.mp (ha.symm.trans hb))
  · intro hm
    have m1' : e1.key = k2 ∨ e1.key = k2.reverse := by
      rcases hm with rfl | hrev
      · exact m1
      · rcases m1 with ha | ha
        · exact Or.inr (by rw [ha, hrev])
        · exact Or.inl (by rw [ha, hrev, List.reverse_reverse])
    have hee : e1 = e2 := entry_match_unique hkd he1 he2 m1' m2
    rw [hid1, hid2, hee]

/-- Lookups of mutually reversed but unequal keys carry opposite
directions. -/
theorem lookupSR_opposite {st : GenState} (hkd : KeyDisjoint st)
    (hdz : DirZero st) {k1 k2 : List String} {r1 r2 : ServiceRoute}
    (h1 : lookupSR st k1 = some r1) (h2 : lookupSR st k2 = some r2)
    (hrev : k1 = k2.reverse) (hne : k1 ≠ k2) :
    (r1.direction_id = 0 ∧ r2.direction_id = 1) ∨
    (r1.direction_id = 1 ∧ r2.direction_id = 0) := by
  obtain ⟨e1, he1, hc1⟩ := lookupSR_some_elim h1
  obtain ⟨e2, he2, hc2⟩ := lookupSR_some_elim h2
  have m1 : e1.key = k1 ∨ e1.key = k1.reverse := by
    rcases hc1 with ⟨h, -⟩ | ⟨h, -, -⟩
    exacts [Or.inl h, Or.inr h]
  have m2 : e2.key = k2 ∨ e2.key = k2.reverse := by
    rcases hc2 with ⟨h, -⟩ | ⟨h, -, -⟩
    exacts [Or.inl h, Or.inr h]
  have m1' : e1.key = k2 ∨ e1.key = k2.reverse := by
    rcases m1 with ha | ha
    · exact Or.inr (by rw [ha, hrev])
    · exact Or.inl (by rw [ha, hrev, List.reverse_reverse])
  have hee : e1 = e2 := entry_match_unique hkd he1 he2 m1' m2
  subst hee
  rcases hc1 with ⟨ha, hr1⟩ | ⟨ha, -, hr1⟩ <;> rcases hc2 with ⟨hb, hr2⟩ | ⟨hb, -, hr2⟩
  · exact absurd (ha.symm.trans hb) hne
  · exact Or.inl ⟨by rw [hr1]; exact hdz e1 he1, by rw [hr2]⟩
  · exact Or.inr ⟨by rw [hr1], by rw [hr2]; exact hdz e1 he1⟩
  · exact absurd (List.reverse_inj.mp (ha.symm.trans hb)) hne

/-- `generate` under a stop-based strategy, expressed through the
registry lookup. -/
theorem generate_stopBased {s : IdentifyStrategy} (hs : stopBased s = true)
    (ids : Option (List ServiceRouteIdentity)) (st : GenState)
    (d : StopTimeDetail) (rest : List StopTimeDetail) :
    generate s ids st (d :: rest) =
      match lookupSR st (patternKey s (d :: rest)) with
      | some r => .ok (r, st)
      | none =>
        .ok (⟨st.length + 1, 0,
              d.stop_name ++ " - " ++ ((d :: rest).getLastD d).stop_name⟩,
            st ++ [⟨patternKey s (d :: rest),
              ⟨st.length + 1, 0,
                d.stop_name ++ " - " ++ ((d :: rest).getLastD d).stop_name⟩⟩]) := by
  cases s
  · rfl
  · rfl
  · rfl
  · simp [stopBased] at hs

/-- The registry invariant is preserved by registering a fresh key. -/
theorem inv_append_new {st : GenState} {k : List String} {nm : String}
    (hinv : Inv st) (hnone : lookupSR st k = none) :
    Inv (st ++ [⟨k, ⟨st.length + 1, 0, nm⟩⟩]) := by
  obtain ⟨hkd, hids, hdz⟩ := hinv
  rw [lookupSR_eq_none_iff] at hnone
  refine ⟨?_, ?_, ?_⟩
  · rw [KeyDisjoint, List.pairwise_append]
    refine ⟨hkd, List.pairwise_singleton _ _, ?_⟩
    intro a ha b hb
    simp only [List.mem_singleton] at hb
    subst hb
    exact hnone a ha
  · intro i h
    rw [List.length_append, List.length_singleton] at h
    rw [List.get_eq_getElem]
    rcases Nat.lt_or_ge i st.length with hi | hi
    · rw [List.getElem_append_left hi]
      have hv := hids i hi
      rw [List.get_eq_getElem] at hv
      exact hv
    · have hieq : i = st.length := by omega
      subst hieq
      simp
  · intro e he
    rcases List.mem_append.mp he with h1 | h2
    · exact hdz e h1
    · simp only [List.mem_singleton] at h2
      subst h2
      rfl

/-- Master lemma for the trip loop under a stop-based strategy: the
final registry satisfies the invariant, extends the initial one, and
every emitted row agrees with a final-registry lookup of its trip's
pattern key; a direction-1 row certifies an earlier trip with the
exact-reverse key (or a pre-existing reversed entry). -/
theorem processTrips_master {s : IdentifyStrategy} (hs : stopBased s = true)
    {ids : Option (List ServiceRouteIdentity)} {rows : List StopTimeDetail} :
    ∀ {ts : List String} {st : GenState} {ps : List Trip2ServiceRoute} {stF : GenState},
      processTrips s ids rows ts st = .ok (ps, stF) → Inv st →
      ts.Pairwise strLt →
      Inv stF ∧ (∃ ext, stF = st ++ ext) ∧
      ∀ p ∈ ps, ∃ r, lookupSR stF (tripKey s rows p.trip_id) = some r ∧
        r.service_route_id = p.service_route_id ∧
        r.direction_id = p.service_route_direction_id ∧
        (r.direction_id = 1 →
          (∃ q ∈ ps, strLt q.trip_id p.trip_id ∧
            tripKey s rows q.trip_id = (tripKey s rows p.trip_id).reverse) ∨
          ∃ e ∈ st, e.key = (tripKey s rows p.trip_id).reverse) := by
  intro ts
  induction ts with
  | nil =>
    intro st ps stF h hinv hsorted
    simp only [processTrips, Except.ok.injEq, Prod.mk.injEq] at h
    obtain ⟨h1, h2⟩ := h
    subst h2
    exact ⟨hinv, ⟨[], by simp⟩, by simp [← h1]⟩
  | cons t ts ih =>
    intro st ps stF h hinv hsorted
    obtain ⟨hst, hts⟩ := List.pairwise_cons.mp hsorted
    simp only [processTrips] at h
    cases hd : detailsOf rows t with
    | nil => rw [hd] at h; simp [generate] at h
    | cons d rest =>
      rw [hd, generate_stopBased hs] at h
      have hkey : tripKey s rows t = patternKey s (d :: rest) := by
        rw [tripKey, hd]
      cases hlk : lookupSR st (patternKey s (d :: rest)) with
      | some r =>
        rw [hlk] at h
        dsimp only at h
        split at h
        · simp at h
        · rename_i psTail stTail hrec
          obtain ⟨hInvF, ⟨ext, hext⟩, hall⟩ := ih hrec hinv hts
          simp only [Except.ok.injEq, Prod.mk.injEq] at h
          obtain ⟨hps, hstF⟩ := h
          subst hps
          subst hstF
          refine ⟨hInvF, ⟨ext, hext⟩, ?_⟩
          intro p hp
          rcases List.mem_cons.mp hp with rfl | hp'
          · refine ⟨r, ?_, rfl, rfl, ?_⟩
            · rw [hkey, hext]
              exact lookupSR_append (by rw [← hext]; exact hInvF.1) hlk
            · intro hdir1
              obtain ⟨e, he, hc⟩ := lookupSR_some_elim hlk
              rcases hc with ⟨hek, hr⟩ | ⟨hek, -, hr⟩
              · exfalso
                have hz := hinv.2.2 e he
                rw [hr] at hdir1
                omega
              · exact Or.inr ⟨e, he, by rw [hkey]; exact hek⟩
          · obtain ⟨r2, hlkp, hid, hdir, hcert⟩ := hall p hp'
            refine ⟨r2, hlkp, hid, hdir, ?_⟩
            intro hdir1
            rcases hcert hdir1 with ⟨q, hq, hlt, hqk⟩ | ⟨e, he, hek⟩
            · exact Or.inl ⟨q, List.mem_cons_of_mem _ hq, hlt, hqk⟩
            · exact Or.inr ⟨e, he, hek⟩
      | none =>
        rw [hlk] at h
        dsimp only at h
        split at h
        · simp at h
        · rename_i psTail stTail hrec
          have hinv1 : Inv (st ++ [⟨patternKey s (d :: rest),
              ⟨st.length + 1, 0,
                d.stop_name ++ " - " ++ ((d :: rest).getLastD d).stop_name⟩⟩]) :=
            inv_append_new hinv hlk
          obtain ⟨hInvF, ⟨ext, hext⟩, hall⟩ := ih hrec hinv1 hts
          simp only [Except.ok.injEq, Prod.mk.injEq] at h
          obtain ⟨hps, hstF⟩ := h
          subst hps
          subst hstF
          have htails : psTail.map (·.trip_id) = ts := processTrips_ok_map_trip_id hrec
          refine ⟨hInvF, ?_, ?_⟩
          · refine ⟨⟨patternKey s (d :: rest),
              ⟨st.length + 1, 0,
                d.stop_name ++ " - " ++ ((d :: rest).getLastD d).stop_name⟩⟩ :: ext, ?_⟩
            rw [hext, List.append_assoc]
            rfl
          · intro p hp
            rcases List.mem_cons.mp hp with rfl | hp'
            · refine ⟨⟨st.length + 1, 0,
                  d.stop_name ++ " - " ++ ((d :: rest).getLastD d).stop_name⟩,
                ?_, rfl, rfl, ?_⟩
              · rw [hkey, hext]
                exact lookupSR_append (by rw [← hext]; exact hInvF.1)
                  (lookupSR_append_self hlk)
              · intro hdir1
                exact absurd hdir1 (by simp)
            · obtain ⟨r2, hlkp, hid, hdir, hcert⟩ := hall p hp'
              refine ⟨r2, hlkp, hid, hdir, ?_⟩
              intro hdir1
              rcases hcert hdir1 with ⟨q, hq, hlt, hqk⟩ | ⟨e, he, hek⟩
              · exact Or.inl ⟨q, List.mem_cons_of_mem _ hq, hlt, hqk⟩
              · rcases List.mem_append.mp he with he' | he'
                · exact Or.inr ⟨e, he', hek⟩
                · simp only [List.mem_singleton] at he'
                  subst he'
                  refine Or.inl ⟨⟨t, st.length + 1, 0⟩, List.mem_cons_self _ _, ?_, ?_⟩
                  · have hmem : p.trip_id ∈ ts := by
                      rw [← htails]
                      exact List.mem_map_of_mem _ hp'
                    exact hst _ hmem
                  · rw [hkey]
                    exact hek

/-- The sorted distinct trip ids are strictly increasing. -/
theorem sortedTrips_pairwise_strLt (rows : List StopTimeDetail) :
    (List.insertionSort strLe (groupKeys rows)).Pairwise strLt := by
  have hs : (List.insertionSort strLe (groupKeys rows)).Pairwise strLe :=
    List.sorted_insertionSort _ _
  have hnd : (List.insertionSort strLe (groupKeys rows)).Nodup :=
    (List.perm_insertionSort strLe (groupKeys rows)).symm.nodup
      (List.nodup_dedup _)
  refine (hs.and hnd).imp ?_
  intro a b hab
  exact lt_of_le_of_ne hab.1
    (fun hd => hab.2 (by cases a; cases b; cases hd; rfl))

/-! ### Claim theorems (third group) -/

/-- Claim C6 (amended, stop-based strategies): after a successful run
with a stop-based strategy the service route ids are exactly the
contiguous range `1..N` (they are assigned sequentially from 1 in
first-observation order), and the node ids are exactly `1..M`. Under
`identity_table` the ids come from the user table and need not be
contiguous (see the counterexample). -/
theorem claim6_dense_ids {s : IdentifyStrategy} (hs : stopBased s = true)
    {idInput : Option (Except Unit (List ServiceRouteIdentity))}
    {rows : List StopTimeDetail} {pairs : List Trip2ServiceRoute}
    {routes : List ServiceRoute}
    (h : insert_service_routes_tables s idInput rows = .ok (pairs, routes))
    (sds : List StopDetail) :
    routes.map (·.service_route_id) = List.range' 1 routes.length ∧
    (insert_nodes_tables sds).map (·.node_id) =
      List.range' 1 (sds.filter fun x => x.parent_station.isNone).length := by
  obtain ⟨ids, ps, st, hpt, -, hroutes⟩ := insert_ok_elim h
  obtain ⟨⟨hkd, hids, hdz⟩, -, -⟩ :=
    processTrips_master hs hpt inv_nil (sortedTrips_pairwise_strLt rows)
  have hm : (st.map (·.route)).map (·.service_route_id) =
      List.range' 1 st.length := by
    rw [List.map_map]
    apply List.ext_getElem
    · simp
    · intro i h1 h2
      have hlen : i < st.length := by simpa using h1
      have hv := hids i hlen
      simp only [List.get_eq_getElem, Fin.val_mk] at hv
      simp only [List.getElem_map, List.getElem_range'_1, Function.comp]
      omega
  have hsorted : (st.map (·.route)).Pairwise routeBySrId := by
    have hp : ((st.map (·.route)).map (·.service_route_id)).Pairwise (· ≤ ·) := by
      rw [hm]
      exact List.pairwise_le_range' _ _
    rw [List.pairwise_map] at hp
    exact hp
  have hre : routes = st.map (·.route) := by
    rw [hroutes]
    exact List.Sorted.insertionSort_eq hsorted
  constructor
  · rw [hre, List.length_map]
    exact hm
  · exact insert_nodes_tables_map_id sds

/-- Stops for the node witness: one child platform, two top-level
stops. -/
def s5stops : List StopDetail :=
  [⟨"P1", "Platform", none, some "S1"⟩,
   ⟨"S1", "Shibuya", some "sibuya", none⟩,
   ⟨"S2", "Shinjuku", none, none⟩]

/-- Witness for the amended claim C6 at a concrete input. -/
theorem claim6_dense_ids_witness :
    ([(⟨1, 0, "A - C"⟩ : ServiceRoute)].map (·.service_route_id) =
      List.range' 1 [(⟨1, 0, "A - C"⟩ : ServiceRoute)].length) ∧
    (insert_nodes_tables s5stops).map (·.node_id) =
      List.range' 1 (s5stops.filter fun x => x.parent_station.isNone).length :=
  claim6_dense_ids (by decide)
    (show insert_service_routes_tables .stop_names none s1rows =
        .ok ([⟨"t1", 1, 0⟩, ⟨"t2", 1, 1⟩], [⟨1, 0, "A - C"⟩]) from rfl)
    s5stops

/-- Claim C6 counterexample: under `identity_table` the service route
ids come from the user-supplied table (here 42) and do not form the
range `1..N`. -/
theorem claim6_counterexample :
    insert_service_routes_tables .identity_table
        (some (.ok [⟨["A"], 42, 0, "X"⟩])) unknownTripRows =
      .ok ([⟨"t1", 42, 0⟩], [⟨42, 0, "X"⟩]) ∧
    [(⟨42, 0, "X"⟩ : ServiceRoute)].map (·.service_route_id) ≠
      List.range' 1 [(⟨42, 0, "X"⟩ : ServiceRoute)].length :=
  ⟨rfl, by decide⟩

/-- Claim C5: under a stop-based strategy, a trip with no
earlier-processed trip in its pattern class gets direction 0, and for
every two rows of a successful run: they share a `service_route_id`
exactly when their pattern keys are equal or mutually reversed, and
exact-reverse (unequal) pattern keys force opposite direction ids. -/
theorem claim5_identification {s : IdentifyStrategy} (hs : stopBased s = true)
    {idInput : Option (Except Unit (List ServiceRouteIdentity))}
    {rows : List StopTimeDetail} {pairs : List Trip2ServiceRoute}
    {routes : List ServiceRoute}
    (h : insert_service_routes_tables s idInput rows = .ok (pairs, routes)) :
    ∀ p ∈ pairs,
      ((∀ q ∈ pairs, strLt q.trip_id p.trip_id →
          ¬ keyMatches (tripKey s rows q.trip_id) (tripKey s rows p.trip_id)) →
        p.service_route_direction_id = 0) ∧
      ∀ q ∈ pairs,
        (p.service_route_id = q.service_route_id ↔
          keyMatches (tripKey s rows p.trip_id) (tripKey s rows q.trip_id)) ∧
        (tripKey s rows p.trip_id = (tripKey s rows q.trip_id).reverse →
          tripKey s rows p.trip_id ≠ tripKey s rows q.trip_id →
          (p.service_route_direction_id = 0 ∧ q.service_route_direction_id = 1) ∨
          (p.service_route_direction_id = 1 ∧ q.service_route_direction_id = 0)) := by
  obtain ⟨ids, ps, st, hpt, hpairs, -⟩ := insert_ok_elim h
  obtain ⟨⟨hkd, hids, hdz⟩, -, hall⟩ :=
    processTrips_master hs hpt inv_nil (sortedTrips_pairwise_strLt rows)
  have hmem : ∀ p : Trip2ServiceRoute, p ∈ pairs ↔ p ∈ ps := by
    intro p
    rw [hpairs]
    exact List.mem_insertionSort bySrId
  intro p hp
  obtain ⟨r1, hl1, hid1, hdir1, hcert1⟩ := hall p ((hmem p).mp hp)
  constructor
  · intro hnone
    rcases lookupSR_dir hdz hl1 with h0 | h1
    · rw [← hdir1]
      exact h0
    · exfalso
      rcases hcert1 h1 with ⟨q, hq, hlt, hqk⟩ | ⟨e, he, -⟩
      · exact hnone q ((hmem q).mpr hq) hlt (Or.inr hqk)
      · exact absurd he (List.not_mem_nil e)
  · intro q hq
    obtain ⟨r2, hl2, hid2, hdir2, -⟩ := hall q ((hmem q).mp hq)
    constructor
    · rw [← hid1, ← hid2]
      exact lookupSR_id_eq_iff hkd hids hl1 hl2
    · intro hrev hne
      have hop := lookupSR_opposite hkd hdz hl1 hl2 hrev hne
      rw [hdir1, hdir2] at hop
      exact hop

/-- Witness for claim C5 at the symmetric two-trip feed. -/
theorem claim5_identification_witness :
    ((⟨"t1", 1, 0⟩ : Trip2ServiceRoute).service_route_id =
        (⟨"t2", 1, 1⟩ : Trip2ServiceRoute).service_route_id ↔
      keyMatches (tripKey .stop_names s1rows "t1")
        (tripKey .stop_names s1rows "t2")) ∧
    (tripKey .stop_names s1rows "t1" =
        (tripKey .stop_names s1rows "t2").reverse →
      tripKey .stop_names s1rows "t1" ≠ tripKey .stop_names s1rows "t2" →
      ((⟨"t1", 1, 0⟩ : Trip2ServiceRoute).service_route_direction_id = 0 ∧
        (⟨"t2", 1, 1⟩ : Trip2ServiceRoute).service_route_direction_id = 1) ∨
      ((⟨"t1", 1, 0⟩ : Trip2ServiceRoute).service_route_direction_id = 1 ∧
        (⟨"t2", 1, 1⟩ : Trip2ServiceRoute).service_route_direction_id = 0)) :=
  (claim5_identification (by decide)
    (show insert_service_routes_tables .stop_names none s1rows =
        .ok ([⟨"t1", 1, 0⟩, ⟨"t2", 1, 1⟩], [⟨1, 0, "A - C"⟩]) from rfl)
    ⟨"t1", 1, 0⟩ (by decide)).2 ⟨"t2", 1, 1⟩ (by decide)

/-! ### Stability of the final sort (claim C10) -/

/-- A duplicate-free list cannot contain two elements in both orders. -/
theorem both_orders_false {x y : α} :
    ∀ {l : List α}, l.Nodup → List.Sublist [x, y] l → List.Sublist [y, x] l → False := by
  intro l
  induction l with
  | nil => intro _ h1 _; simp at h1
  | cons z t ih =>
    intro hnd h1 h2
    rw [List.nodup_cons] at hnd
    cases h1 with
    | cons _ h1' =>
      cases h2 with
      | cons _ h2' => exact ih hnd.2 h1' h2'
      | cons₂ _ h2' => exact hnd.1 (h1'.subset (by simp))
    | cons₂ _ h1' =>
      cases h2 with
      | cons _ h2' => exact hnd.1 (h2'.subset (by simp))
      | cons₂ _ h2' => exact hnd.1 (h1'.subset (by simp))

/-- Two distinct members of a list occur as a two-element sublist in
one order or the other. -/
theorem sublist_pair_of_mem {x y : α} :
    ∀ {l : List α}, x ∈ l → y ∈ l → x ≠ y → List.Sublist [x, y] l ∨ List.Sublist [y, x] l := by
  intro l
  induction l with
  | nil => intro hx; simp at hx
  | cons z t ih =>
    intro hx hy hne
    rcases List.mem_cons.mp hx with rfl | hx'
    · have hyt : y ∈ t := by
        rcases List.mem_cons.mp hy with h | h
        · exact absurd h.symm hne
        · exact h
      exact Or.inl (List.Sublist.cons₂ x (List.singleton_sublist.mpr hyt))
    · rcases List.mem_cons.mp hy with rfl | hy'
      · exact Or.inr (List.Sublist.cons₂ y (List.singleton_sublist.mpr hx'))
      · rcases ih hx' hy' hne with h | h
        · exact Or.inl (List.Sublist.cons z h)
        · exact Or.inr (List.Sublist.cons z h)

/-- The elements at two increasing positions form a two-element
sublist. -/
theorem sublist_pair_of_getElem {l : List α} {i j : Nat}
    (hi : i < l.length) (hj : j < l.length) (hij : i < j) :
    List.Sublist [l.get ⟨i, hi⟩, l.get ⟨j, hj⟩] l := by
  simp only [List.get_eq_getElem]
  have h2 : l[j] ∈ l.drop (i + 1) := by
    have hj' : j - (i + 1) < (l.drop (i + 1)).length := by
      rw [List.length_drop]
      omega
    have : (l.drop (i + 1))[j - (i + 1)] = l[j] := by
      rw [List.getElem_drop]
      congr 1
      omega
    rw [← this]
    exact List.getElem_mem hj'
  have hs1 : List.Sublist [l[i], l[j]] (l[i] :: l.drop (i + 1)) :=
    List.Sublist.cons₂ _ (List.singleton_sublist.mpr h2)
  have hd : l.drop i = l[i] :: l.drop (i + 1) := List.drop_eq_getElem_cons hi
  rw [← hd] at hs1
  exact hs1.trans (List.drop_sublist _ _)

/-- Claim C10: among the `trips_to_service_routes` rows of a
successful run, rows sharing a `service_route_id` appear in strictly
ascending `trip_id` order (the trip loop emits trips in sorted order
and the final sort by `service_route_id` is stable). -/
theorem claim10_stable_within_route {strategy : IdentifyStrategy}
    {idInput : Option (Except Unit (List ServiceRouteIdentity))}
    {rows : List StopTimeDetail} {pairs : List Trip2ServiceRoute}
    {routes : List ServiceRoute}
    (h : insert_service_routes_tables strategy idInput rows = .ok (pairs, routes)) :
    pairs.Pairwise (fun a b => a.service_route_id = b.service_route_id →
      strLt a.trip_id b.trip_id) := by
  obtain ⟨ids, ps, st, hpt, hpairs, -⟩ := insert_ok_elim h
  have hts : ps.map (·.trip_id) = List.insertionSort strLe (groupKeys rows) :=
    processTrips_ok_map_trip_id hpt
  have hPs : ps.Pairwise (fun a b => strLt a.trip_id b.trip_id) := by
    have hp := sortedTrips_pairwise_strLt rows
    rw [← hts, List.pairwise_map] at hp
    exact hp
  have hndps : ps.Nodup := by
    refine List.Nodup.of_map (fun p => p.trip_id) ?_
    rw [hts]
    exact (List.perm_insertionSort strLe (groupKeys rows)).symm.nodup
      (List.nodup_dedup _)
  have hndout : pairs.Nodup := by
    rw [hpairs]
    exact (List.perm_insertionSort bySrId ps).symm.nodup hndps
  rw [hpairs]
  rw [List.pairwise_iff_getElem]
  intro i j hi hj hij hideq
  have hndout' : (List.insertionSort bySrId ps).Nodup := by
    rw [← hpairs]; exact hndout
  have hxy : (List.insertionSort bySrId ps)[i] ≠ (List.insertionSort bySrId ps)[j] := by
    intro he
    exact absurd (hndout'.getElem_inj_iff.mp he) (Nat.ne_of_lt hij)
  have hxi : (List.insertionSort bySrId ps)[i] ∈ ps := by
    rw [← List.mem_insertionSort bySrId]
    exact List.getElem_mem hi
  have hyj : (List.insertionSort bySrId ps)[j] ∈ ps := by
    rw [← List.mem_insertionSort bySrId]
    exact List.getElem_mem hj
  rcases sublist_pair_of_mem hxi hyj hxy with hsub | hsub
  · exact List.rel_of_pairwise_cons (hPs.sublist hsub) (by simp)
  · exfalso
    have hle : bySrId (List.insertionSort bySrId ps)[j]
        (List.insertionSort bySrId ps)[i] := Nat.le_of_eq hideq.symm
    have hsub2 : List.Sublist [(List.insertionSort bySrId ps)[j],
        (List.insertionSort bySrId ps)[i]] (List.insertionSort bySrId ps) :=
      List.pair_sublist_insertionSort hle hsub
    have hsub1 : List.Sublist [(List.insertionSort bySrId ps)[i],
        (List.insertionSort bySrId ps)[j]] (List.insertionSort bySrId ps) := by
      have := sublist_pair_of_getElem hi hj hij
      simpa using this
    exact both_orders_false hndout' hsub1 hsub2

/-- Witness for claim C10 at the branch feed: rows with service route
1 are the trips `a`, `c` in that (ascending) order. -/
theorem claim10_stable_within_route_witness :
    ([(⟨"a", 1, 0⟩ : Trip2ServiceRoute), ⟨"c", 1, 1⟩, ⟨"b", 2, 0⟩]).Pairwise
      (fun a b => a.service_route_id = b.service_route_id →
        strLt a.trip_id b.trip_id) :=
  claim10_stable_within_route
    (show insert_service_routes_tables .stop_names none branchRows =
        .ok ([⟨"a", 1, 0⟩, ⟨"c", 1, 1⟩, ⟨"b", 2, 0⟩],
             [⟨1, 0, "A - B"⟩, ⟨2, 0, "C - D"⟩]) from rfl)
